import Mathlib

/-!
Verification of the event classification and recipient-resolution engine of
a webhook-driven notification relay (GitHub / GitLab events forwarded to
per-user Teams webhooks).  The definitions below are a shallow embedding of
`src/index.js`: JavaScript objects with optional nested fields become
structures of `Option` fields, lodash `_.get(o, path, default)` becomes
`Option.getD`, JavaScript string coercion `String(x)` becomes `jsValToString`,
and the outbound `fetch` to a Teams webhook becomes an oracle
`deliver : Card → String → Bool` together with an explicit log of attempted
posts `(card, webhookUrl)`.
-/

set_option maxRecDepth 4096

/-- Source platform of an inbound webhook (the `source` argument of
`processWebhook`, either the string `'github'` or `'gitlab'`). -/
inductive Source where
  | github
  | gitlab
deriving DecidableEq, Repr

/-- Values that flow into `findPROwner` as the PR author: GitHub parsers
produce strings (with `''` default), GitLab parsers produce the raw
`author_id`, which is a JSON number or `undefined` when the field is
missing.  Mirrors the dynamic typing of the JavaScript value. -/
inductive JSVal where
  | undefinedVal
  | str (s : String)
  | num (n : Int)
deriving DecidableEq, Repr

/-- JavaScript `String(x)` coercion for the values of `JSVal`. -/
def jsValToString : JSVal → String
  | .undefinedVal => "undefined"
  | .str s => s
  | .num n => toString n

/-- JavaScript `.toLowerCase()` (character-wise lowering, faithful on the
ASCII identifiers this program compares). -/
def jsToLower (s : String) : String :=
  String.mk (s.data.map Char.toLower)

/-- JavaScript `s.substring(0, n)` for the truncation in the card builders. -/
def jsSubstring (s : String) (n : Nat) : String :=
  String.mk (s.data.take n)

/-- Truthiness of an optional string field, as JavaScript sees it: the field
is truthy when present and non-empty. -/
def jsTruthyStr : Option String → Bool
  | some s => s != ""
  | none => false

/-- JavaScript `a || b` on two strings (used for the `mergedBy` fallback). -/
def jsOrStr (a b : String) : String :=
  if a = "" then b else a

/-- One entry of the `USERS_CONFIG` registry.  `name` and `teamsWebhookUrl`
are validated at startup; the platform identities and `mentionAliases` are
optional (lodash defaults `''` / `[]` apply at the use sites). -/
structure UserConfig where
  name : String
  teamsWebhookUrl : String
  githubUsername : Option String
  gitlabUsername : Option String
  gitlabUserId : Option Int
  mentionAliases : List String
deriving DecidableEq, Repr

/-- GitHub `pull_request` object (the fields `parseGitHubMergeEvent`,
`parseGitHubReviewEvent` and the comment parsers read). -/
structure PullRequestObj where
  merged : Option Bool
  user_login : Option String
  title : Option String
  html_url : Option String
  merged_by_login : Option String
deriving DecidableEq, Repr

/-- GitHub `issue` object; `has_pull_request` models
`_.has(issue, 'pull_request')`, the marker distinguishing PR comments from
plain issue comments. -/
structure IssueObj where
  has_pull_request : Bool
  user_login : Option String
  title : Option String
  html_url : Option String
deriving DecidableEq, Repr

/-- GitHub `review` object. -/
structure ReviewObj where
  state : Option String
  user_login : Option String
  body : Option String
deriving DecidableEq, Repr

/-- GitHub `comment` object (issue comments and review-line comments; the
latter carry a file `path`). -/
structure CommentObj where
  user_login : Option String
  body : Option String
  html_url : Option String
  path : Option String
deriving DecidableEq, Repr

/-- GitLab `object_attributes` object. -/
structure ObjectAttributes where
  action : Option String
  noteable_type : Option String
  note : Option String
  url : Option String
  author_id : Option Int
  title : Option String
deriving DecidableEq, Repr

/-- GitLab `merge_request` object carried by note events. -/
structure MergeRequestObj where
  author_id : Option Int
  title : Option String
  url : Option String
deriving DecidableEq, Repr

/-- Inbound webhook body: the (flattened) union of the nested JSON fields the
parsers of both platforms read.  Absent keys are `none`. -/
structure Body where
  action : Option String
  pull_request : Option PullRequestObj
  review : Option ReviewObj
  comment : Option CommentObj
  issue : Option IssueObj
  sender_login : Option String
  repository_full_name : Option String
  object_kind : Option String
  object_attributes : Option ObjectAttributes
  merge_request : Option MergeRequestObj
  user_username : Option String
  project_path_with_namespace : Option String
deriving DecidableEq, Repr

/-- Constant `COMMENT_CREATED_ACTION` of the source. -/
def COMMENT_CREATED_ACTION : String := "created"

/-- Constant `NOTE_OBJECT_KIND` of the source. -/
def NOTE_OBJECT_KIND : String := "note"

/-- Constant `MERGE_REQUEST_OBJECT_KIND` of the source. -/
def MERGE_REQUEST_OBJECT_KIND : String := "merge_request"

/-- Constant `MERGE_REQUEST_TYPE` of the source. -/
def MERGE_REQUEST_TYPE : String := "MergeRequest"

/-- Constant `MERGE_ACTION` of the source. -/
def MERGE_ACTION : String := "merge"

/-- Constant `APPROVED_ACTION` of the source. -/
def APPROVED_ACTION : String := "approved"

/-- Constant `PR_CLOSED_ACTION` of the source. -/
def PR_CLOSED_ACTION : String := "closed"

/-- Constant `PR_REVIEW_SUBMITTED_ACTION` of the source. -/
def PR_REVIEW_SUBMITTED_ACTION : String := "submitted"

/-- Constant `PR_REVIEW_APPROVED_STATE` of the source. -/
def PR_REVIEW_APPROVED_STATE : String := "approved"

/-- Constant `PR_REVIEW_CHANGES_REQUESTED_STATE` of the source. -/
def PR_REVIEW_CHANGES_REQUESTED_STATE : String := "changes_requested"

/-- Normalized merge event (the object returned by the merge parsers; the
constant `type: 'merge'` field is implied by the Lean type). -/
structure MergeEvent where
  source : Source
  prAuthor : JSVal
  prTitle : String
  prUrl : String
  mergedBy : String
  repoName : String
deriving DecidableEq, Repr

/-- Normalized approval/review event (`type: 'approval'`).  `reviewBody` is
`none` for GitLab events, whose parser does not set the field. -/
structure ApprovalEvent where
  source : Source
  state : String
  prAuthor : JSVal
  prTitle : String
  prUrl : String
  reviewedBy : String
  repoName : String
  reviewBody : Option String
deriving DecidableEq, Repr

/-- Normalized comment event.  `filePath` is `none` for payload shapes whose
parser does not set the field (issue comments and GitLab notes). -/
structure CommentEvent where
  source : Source
  prAuthor : JSVal
  prTitle : String
  prUrl : String
  commentAuthor : String
  commentBody : String
  commentUrl : String
  repoName : String
  filePath : Option String
deriving DecidableEq, Repr

/-- Conversion of a raw optional `author_id` into the dynamic value
`_.get(mergeRequest, 'author_id')` (no default: missing gives `undefined`). -/
def jsOfOptNum : Option Int → JSVal
  | some n => .num n
  | none => .undefinedVal

/-- Embedding of `findPROwner(source, prAuthor)`: find the registered user
whose PR/MR this is.  GitHub compares the lowered author string with the
lowered `github.username` (default `''`); GitLab compares it with
`String(_.get(user, 'gitlab.userId', ''))`. -/
def findPROwner (users : List UserConfig) (source : Source) (prAuthor : JSVal) :
    Option UserConfig :=
  let prAuthorStr := jsToLower (jsValToString prAuthor)
  users.find? fun user =>
    match source with
    | .github => prAuthorStr == jsToLower (user.githubUsername.getD "")
    | .gitlab =>
        prAuthorStr == (match user.gitlabUserId with
          | some n => toString n
          | none => "")

/-- Embedding of `isCommentAuthor(user, source, commentAuthor)` (case
insensitive comparison against the user's platform username). -/
def isCommentAuthor (user : UserConfig) (source : Source) (commentAuthor : String) :
    Bool :=
  let commentAuthorLower := jsToLower commentAuthor
  match source with
  | .github => commentAuthorLower == jsToLower (user.githubUsername.getD "")
  | .gitlab => commentAuthorLower == jsToLower (user.gitlabUsername.getD "")

/-- ASCII word character, the `\w` class of the JavaScript regexp engine. -/
def isWordChar (c : Char) : Bool :=
  c.isAlphanum || c == '_'

/-- Case-insensitive prefix matching of a pattern against a character list;
on success it returns the remainder of the input.  This is the literal part
of the regexp `@name` with the `i` flag. -/
def matchCI : List Char → List Char → Option (List Char)
  | [], rest => some rest
  | _ :: _, [] => none
  | p :: ps, b :: bs => if p.toLower = b.toLower then matchCI ps bs else none

/-- Word-boundary test `\b` at the position after a match: the last matched
character and the first remaining character must disagree on word-ness (end
of input counts as a non-word character). -/
def boundaryAfter (lastChar : Char) (rest : List Char) : Bool :=
  isWordChar lastChar != (match rest with
    | [] => false
    | c :: _ => isWordChar c)

/-- Test of the regexp `@name\b` (flag `i`) anchored at the current
position. -/
def matchMentionAt (name : List Char) (chars : List Char) : Bool :=
  match matchCI ('@' :: name) chars with
  | none => false
  | some rest => boundaryAfter (name.getLastD '@') rest

/-- Unanchored search for `@name\b` (flag `i`), i.e.
`new RegExp(`@${name}\b`, 'i').test(body)` for a `name` without regexp
metacharacters (usernames and team aliases). -/
def testMention (name : List Char) : List Char → Bool
  | [] => matchMentionAt name []
  | c :: rest => matchMentionAt name (c :: rest) || testMention name rest

/-- String-level wrapper of `testMention`. -/
def testMentionStr (name body : String) : Bool :=
  testMention name.data body.data

/-- Watch-name list of a user: the platform username followed by the
configured `mentionAliases`, with falsy (empty) entries dropped — the
`[username, ...aliases].filter(Boolean)` of the source. -/
def watchNames (user : UserConfig) (source : Source) : List String :=
  let username := match source with
    | .github => user.githubUsername.getD ""
    | .gitlab => user.gitlabUsername.getD ""
  (username :: user.mentionAliases).filter fun s => s ≠ ""

/-- Embedding of `findMentionedUsers(commentBody, source)`: each user paired
with the first of their watch-names whose `@name\b` pattern occurs in the
comment body. -/
def findMentionedUsers (users : List UserConfig) (commentBody : String)
    (source : Source) : List (UserConfig × String) :=
  if commentBody = "" then []
  else
    users.filterMap fun user =>
      ((watchNames user source).find? fun name =>
        testMentionStr name commentBody).map fun mentioned => (user, mentioned)

/-- Embedding of `parseGitLabMergeEvent(body)`. -/
def parseGitLabMergeEvent (body : Body) : Option MergeEvent :=
  if body.object_kind = some MERGE_REQUEST_OBJECT_KIND then
    if (body.object_attributes.bind fun oa => oa.action) = some MERGE_ACTION then
      match body.object_attributes with
      | some mergeRequest =>
          some { source := .gitlab
                 prAuthor := jsOfOptNum mergeRequest.author_id
                 prTitle := mergeRequest.title.getD ""
                 prUrl := mergeRequest.url.getD ""
                 mergedBy := body.user_username.getD ""
                 repoName := body.project_path_with_namespace.getD "" }
      | none => none
    else none
  else none

/-- Embedding of `parseGitHubMergeEvent(body)`.  The author of the PR is
`_.get(pullRequest, 'user.login', '')` and the merger falls back from
`merged_by.login` to the top-level `sender.login`. -/
def parseGitHubMergeEvent (body : Body) : Option MergeEvent :=
  if body.action = some PR_CLOSED_ACTION then
    match body.pull_request with
    | some pullRequest =>
        if pullRequest.merged.getD false then
          some { source := .github
                 prAuthor := .str (pullRequest.user_login.getD "")
                 prTitle := pullRequest.title.getD ""
                 prUrl := pullRequest.html_url.getD ""
                 mergedBy := jsOrStr (pullRequest.merged_by_login.getD "")
                   (body.sender_login.getD "")
                 repoName := body.repository_full_name.getD "" }
        else none
    | none => none
  else none

/-- Normalized event `parseGitHubMergeEvent` builds from a qualifying
payload carrying `pullRequest`. -/
def ghMergeEventOf (body : Body) (pullRequest : PullRequestObj) : MergeEvent :=
  { source := .github
    prAuthor := .str (pullRequest.user_login.getD "")
    prTitle := pullRequest.title.getD ""
    prUrl := pullRequest.html_url.getD ""
    mergedBy := jsOrStr (pullRequest.merged_by_login.getD "")
      (body.sender_login.getD "")
    repoName := body.repository_full_name.getD "" }

/-- Embedding of `parseGitLabApprovalEvent(body)` (GitLab reports only the
`approved` state). -/
def parseGitLabApprovalEvent (body : Body) : Option ApprovalEvent :=
  if body.object_kind = some MERGE_REQUEST_OBJECT_KIND then
    if (body.object_attributes.bind fun oa => oa.action) = some APPROVED_ACTION then
      match body.object_attributes with
      | some mergeRequest =>
          some { source := .gitlab
                 state := "approved"
                 prAuthor := jsOfOptNum mergeRequest.author_id
                 prTitle := mergeRequest.title.getD ""
                 prUrl := mergeRequest.url.getD ""
                 reviewedBy := body.user_username.getD ""
                 repoName := body.project_path_with_namespace.getD ""
                 reviewBody := none }
      | none => none
    else none
  else none

/-- Embedding of `parseGitHubReviewEvent(body)`: only the lower-cased states
`approved` and `changes_requested` are recognized. -/
def parseGitHubReviewEvent (body : Body) : Option ApprovalEvent :=
  if body.action = some PR_REVIEW_SUBMITTED_ACTION then
    match body.review, body.pull_request with
    | some review, some pullRequest =>
        let state := jsToLower (review.state.getD "")
        if state = PR_REVIEW_APPROVED_STATE ∨
            state = PR_REVIEW_CHANGES_REQUESTED_STATE then
          some { source := .github
                 state := state
                 prAuthor := .str (pullRequest.user_login.getD "")
                 prTitle := pullRequest.title.getD ""
                 prUrl := pullRequest.html_url.getD ""
                 reviewedBy := review.user_login.getD ""
                 repoName := body.repository_full_name.getD ""
                 reviewBody := some (review.body.getD "") }
        else none
    | _, _ => none
  else none

/-- Embedding of `parseGitHubPayload(body)` (issue-style PR comments): the
commented object is `_.get(body, 'pull_request') || issue`, and the payload
must carry a PR marker (`_.has(issue, 'pull_request')` or a top-level
`pull_request`) to exclude plain issue comments. -/
def parseGitHubPayload (body : Body) : Option CommentEvent :=
  if body.action = some COMMENT_CREATED_ACTION then
    match body.comment with
    | some issueComment =>
        let isPR := (match body.issue with
          | some issue => issue.has_pull_request
          | none => false) || body.pull_request.isSome
        match body.pull_request with
        | some pullRequest =>
            if isPR then
              some { source := .github
                     prAuthor := .str (pullRequest.user_login.getD "")
                     prTitle := pullRequest.title.getD ""
                     prUrl := pullRequest.html_url.getD ""
                     commentAuthor := issueComment.user_login.getD ""
                     commentBody := issueComment.body.getD ""
                     commentUrl := issueComment.html_url.getD ""
                     repoName := body.repository_full_name.getD ""
                     filePath := none }
            else none
        | none =>
            match body.issue with
            | some issue =>
                if isPR then
                  some { source := .github
                         prAuthor := .str (issue.user_login.getD "")
                         prTitle := issue.title.getD ""
                         prUrl := issue.html_url.getD ""
                         commentAuthor := issueComment.user_login.getD ""
                         commentBody := issueComment.body.getD ""
                         commentUrl := issueComment.html_url.getD ""
                         repoName := body.repository_full_name.getD ""
                         filePath := none }
                else none
            | none => none
    | none => none
  else none

/-- Embedding of `parseGitHubReviewPayload(body)` (review-line comments,
which carry a file `path`). -/
def parseGitHubReviewPayload (body : Body) : Option CommentEvent :=
  if body.action = some COMMENT_CREATED_ACTION then
    match body.comment, body.pull_request with
    | some comment, some pullRequest =>
        some { source := .github
               prAuthor := .str (pullRequest.user_login.getD "")
               prTitle := pullRequest.title.getD ""
               prUrl := pullRequest.html_url.getD ""
               commentAuthor := comment.user_login.getD ""
               commentBody := comment.body.getD ""
               commentUrl := comment.html_url.getD ""
               repoName := body.repository_full_name.getD ""
               filePath := some (comment.path.getD "") }
    | _, _ => none
  else none

/-- Embedding of `parseGitLabPayload(body)` (notes on merge requests; the MR
author is only available as a numeric id). -/
def parseGitLabPayload (body : Body) : Option CommentEvent :=
  if body.object_kind = some NOTE_OBJECT_KIND then
    if (body.object_attributes.bind fun oa => oa.noteable_type) =
        some MERGE_REQUEST_TYPE then
      match body.merge_request with
      | some mergeRequest =>
          some { source := .gitlab
                 prAuthor := jsOfOptNum mergeRequest.author_id
                 prTitle := mergeRequest.title.getD ""
                 prUrl := mergeRequest.url.getD ""
                 commentAuthor := body.user_username.getD ""
                 commentBody := (body.object_attributes.bind fun oa => oa.note).getD ""
                 commentUrl := (body.object_attributes.bind fun oa => oa.url).getD ""
                 repoName := body.project_path_with_namespace.getD ""
                 filePath := none }
      | none => none
    else none
  else none

/-- Abstraction of the four Teams Adaptive Cards: the card's headline text,
its fact set, the optional free-text block and the action links, i.e. every
payload-dependent part of the JSON the source builds. -/
structure Card where
  title : String
  facts : List (String × String)
  bodyText : Option String
  actions : List (String × String)
deriving DecidableEq, Repr

/-- Human-readable noun for the change request, per platform. -/
def prLabelOf (source : Source) : String :=
  if source = .github then "PR" else "MR"

/-- Platform label used in the cards' fact sets. -/
def sourceLabelOf (source : Source) : String :=
  if source = .github then "GitHub" else "GitLab"

/-- Embedding of `createAdaptiveCard(data)` (comment notification for the PR
owner), including the 500-character truncation of the comment body. -/
def createAdaptiveCard (data : CommentEvent) : Card :=
  let sourceLabel := sourceLabelOf data.source
  let prLabel := prLabelOf data.source
  let truncatedBody := if data.commentBody.length > 500
    then jsSubstring data.commentBody 500 ++ "..."
    else data.commentBody
  let title := if jsTruthyStr data.filePath
    then "💬 Code Review Comment from " ++ data.commentAuthor
    else "💬 " ++ data.commentAuthor ++ " commented on your " ++ prLabel
  { title := title
    facts := [("Source:", sourceLabel), ("Repository:", data.repoName),
        (prLabel ++ ":", data.prTitle), ("Comment by:", data.commentAuthor)] ++
      (if jsTruthyStr data.filePath then [("File:", data.filePath.getD "")] else [])
    bodyText := some truncatedBody
    actions := [("View Comment", data.commentUrl), ("View " ++ prLabel, data.prUrl)] }

/-- Embedding of `createMentionCard(data, mentionedAs)`. -/
def createMentionCard (data : CommentEvent) (mentionedAs : String) : Card :=
  let sourceLabel := sourceLabelOf data.source
  let prLabel := prLabelOf data.source
  let truncatedBody := if data.commentBody.length > 500
    then jsSubstring data.commentBody 500 ++ "..."
    else data.commentBody
  { title := "📢 " ++ data.commentAuthor ++ " mentioned you (@" ++ mentionedAs ++ ")"
    facts := [("Source:", sourceLabel), ("Repository:", data.repoName),
      (prLabel ++ ":", data.prTitle), ("Mentioned by:", data.commentAuthor)]
    bodyText := some truncatedBody
    actions := [("View Comment", data.commentUrl), ("View " ++ prLabel, data.prUrl)] }

/-- Embedding of `createMergeCard(data)` (no free-text block). -/
def createMergeCard (data : MergeEvent) : Card :=
  let sourceLabel := sourceLabelOf data.source
  let prLabel := prLabelOf data.source
  { title := "🎉 " ++ data.mergedBy ++ " merged your " ++ prLabel
    facts := [("Source:", sourceLabel), ("Repository:", data.repoName),
      (prLabel ++ ":", data.prTitle), ("Merged by:", data.mergedBy)]
    bodyText := none
    actions := [("View " ++ prLabel, data.prUrl)] }

/-- Embedding of `createApprovalCard(data)`: the headline differs by review
state, and a truncated review body is appended only when the reviewer left
one. -/
def createApprovalCard (data : ApprovalEvent) : Card :=
  let sourceLabel := sourceLabelOf data.source
  let prLabel := prLabelOf data.source
  let isApproved := data.state = "approved"
  let title := if isApproved
    then "✅ " ++ data.reviewedBy ++ " approved your " ++ prLabel
    else "⚠️ " ++ data.reviewedBy ++ " requested changes on your " ++ prLabel
  { title := title
    facts := [("Source:", sourceLabel), ("Repository:", data.repoName),
      (prLabel ++ ":", data.prTitle), ("Reviewed by:", data.reviewedBy)]
    bodyText := if jsTruthyStr data.reviewBody
      then
        let reviewBody := data.reviewBody.getD ""
        some (if reviewBody.length > 500
          then jsSubstring reviewBody 500 ++ "..."
          else reviewBody)
      else none
    actions := [("View " ++ prLabel, data.prUrl)] }

/-- Embedding of `sendToTeams(card, webhookUrl)`: the outbound POST is an
oracle `deliver`; the second component records the attempted post.  A
missing (empty) webhook URL is reported as failure without any attempt. -/
def sendToTeams (deliver : Card → String → Bool) (card : Card)
    (webhookUrl : String) : Bool × List (Card × String) :=
  if webhookUrl = "" then (false, [])
  else (deliver card webhookUrl, [(card, webhookUrl)])

/-- One element of the `results` array the comment branch of
`processWebhook` accumulates: the notification variant (`'comment'` for the
PR owner, `'mention'` otherwise), the recipient's configured name, the
matched alias for mentions, and the delivery outcome. -/
structure NotifEntry where
  type : String
  user : String
  mentionedAs : Option String
  sent : Bool
deriving DecidableEq, Repr

/-- Response object of `processWebhook`: a merge outcome, an approval
outcome, the aggregated comment notifications, or a not-processed outcome
with a reason. -/
inductive WebhookResult where
  | merged (processed : Bool) (user : String) (data : MergeEvent)
  | approved (processed : Bool) (state : String) (user : String) (data : ApprovalEvent)
  | notifications (processed : Bool) (entries : List NotifEntry)
  | ignored (reason : String)
deriving DecidableEq, Repr

/-- Platform dispatch for the merge parsers (the first classification tried
by `processWebhook`). -/
def parseMergeEvent (source : Source) (data : Body) : Option MergeEvent :=
  match source with
  | .github => parseGitHubMergeEvent data
  | .gitlab => parseGitLabMergeEvent data

/-- Platform dispatch for the approval/review parsers (the second
classification tried by `processWebhook`). -/
def parseApprovalEvent (source : Source) (data : Body) : Option ApprovalEvent :=
  match source with
  | .github => parseGitHubReviewEvent data
  | .gitlab => parseGitLabApprovalEvent data

/-- Platform dispatch for the comment parsers (the last classification):
for GitHub the review-line shape is tried before the issue-comment shape. -/
def parseCommentEvent (source : Source) (data : Body) : Option CommentEvent :=
  match source with
  | .github => (parseGitHubReviewPayload data).orElse fun _ => parseGitHubPayload data
  | .gitlab => parseGitLabPayload data

/-- Merge branch of `processWebhook`: notify the PR owner, or report the
author as not configured.  The second component is the delivery-attempt
log. -/
def handleMerge (users : List UserConfig) (deliver : Card → String → Bool)
    (source : Source) (mergeEvent : MergeEvent) :
    WebhookResult × List (Card × String) :=
  match findPROwner users source mergeEvent.prAuthor with
  | some prOwner =>
      let s := sendToTeams deliver (createMergeCard mergeEvent) prOwner.teamsWebhookUrl
      (.merged s.1 prOwner.name mergeEvent, s.2)
  | none => (.ignored (prLabelOf source ++ " author not configured"), [])

/-- Approval branch of `processWebhook`. -/
def handleApproval (users : List UserConfig) (deliver : Card → String → Bool)
    (source : Source) (approvalEvent : ApprovalEvent) :
    WebhookResult × List (Card × String) :=
  match findPROwner users source approvalEvent.prAuthor with
  | some prOwner =>
      let s := sendToTeams deliver (createApprovalCard approvalEvent)
        prOwner.teamsWebhookUrl
      (.approved s.1 approvalEvent.state prOwner.name approvalEvent, s.2)
  | none => (.ignored (prLabelOf source ++ " author not configured"), [])

/-- Loop body of the mention pass of the comment branch: skip the comment's
author (unless self-comments are allowed) and anyone already notified;
otherwise send a mention card and record the recipient.  The accumulator is
`(results, notifiedUsers, delivery log)`. -/
def mentionStep (allowSelfComments : Bool) (deliver : Card → String → Bool)
    (source : Source) (parsed : CommentEvent)
    (acc : List NotifEntry × List String × List (Card × String))
    (m : UserConfig × String) :
    List NotifEntry × List String × List (Card × String) :=
  if !allowSelfComments && isCommentAuthor m.1 source parsed.commentAuthor then acc
  else if acc.2.1.contains m.1.name then acc
  else
    let s := sendToTeams deliver (createMentionCard parsed m.2) m.1.teamsWebhookUrl
    (acc.1 ++ [{ type := "mention", user := m.1.name, mentionedAs := some m.2,
                 sent := s.1 }],
      acc.2.1 ++ [m.1.name], acc.2.2 ++ s.2)

/-- Comment branch of `processWebhook` before the final response shaping:
first the PR-owner notification (suppressed for self-comments unless the
`ALLOW_SELF_COMMENTS` flag is set), then the mention pass over
`findMentionedUsers`, de-duplicated through the `notifiedUsers` set. -/
def commentAccum (users : List UserConfig) (allowSelfComments : Bool)
    (deliver : Card → String → Bool) (source : Source) (parsed : CommentEvent) :
    List NotifEntry × List String × List (Card × String) :=
  let init : List NotifEntry × List String × List (Card × String) :=
    match findPROwner users source parsed.prAuthor with
    | some prOwner =>
        if allowSelfComments || !isCommentAuthor prOwner source parsed.commentAuthor then
          let s := sendToTeams deliver (createAdaptiveCard parsed)
            prOwner.teamsWebhookUrl
          ([{ type := "comment", user := prOwner.name, mentionedAs := none,
              sent := s.1 }], [prOwner.name], s.2)
        else ([], [], [])
    | none => ([], [], [])
  (findMentionedUsers users parsed.commentBody source).foldl
    (mentionStep allowSelfComments deliver source parsed) init

/-- Comment branch of `processWebhook`: an empty `results` list yields a
not-processed outcome, otherwise the response carries `processed: true` with
the per-recipient outcome list. -/
def handleComment (users : List UserConfig) (allowSelfComments : Bool)
    (deliver : Card → String → Bool) (source : Source) (parsed : CommentEvent) :
    WebhookResult × List (Card × String) :=
  let acc := commentAccum users allowSelfComments deliver source parsed
  if acc.1 = [] then (.ignored "no configured users to notify", acc.2.2)
  else (.notifications true acc.1, acc.2.2)

/-- Embedding of `processWebhook(source, data)`: classification in strict
priority order merge → review/approval → comment, then the matching
branch.  `allowSelfComments` models the `ALLOW_SELF_COMMENTS` environment
flag and `deliver` the outbound POST; the second component logs every
attempted post. -/
def processWebhook (users : List UserConfig) (allowSelfComments : Bool)
    (deliver : Card → String → Bool) (source : Source) (data : Body) :
    WebhookResult × List (Card × String) :=
  match parseMergeEvent source data with
  | some mergeEvent => handleMerge users deliver source mergeEvent
  | none =>
      match parseApprovalEvent source data with
      | some approvalEvent => handleApproval users deliver source approvalEvent
      | none =>
          match parseCommentEvent source data with
          | some parsed => handleComment users allowSelfComments deliver source parsed
          | none =>
              (.ignored ("not a recognized " ++ prLabelOf source ++ " event"), [])

/-- Entry the mention pass appends for a matched `(user, mentionedAs)` pair. -/
def mentionEntry (d : Card → String → Bool) (p : CommentEvent)
    (m : UserConfig × String) : NotifEntry :=
  { type := "mention"
    user := m.1.name
    mentionedAs := some m.2
    sent := (sendToTeams d (createMentionCard p m.2) m.1.teamsWebhookUrl).1 }

/-- Entry the comment branch records for the PR owner. -/
def ownerEntry (d : Card → String → Bool) (p : CommentEvent)
    (o : UserConfig) : NotifEntry :=
  { type := "comment"
    user := o.name
    mentionedAs := none
    sent := (sendToTeams d (createAdaptiveCard p) o.teamsWebhookUrl).1 }

/-! Concrete registry entries and payloads used as evaluation witnesses. -/

/-- Test registry entry with both platform identities. -/
def aliceUser : UserConfig :=
  { name := "alice"
    teamsWebhookUrl := "https://teams.example/alice"
    githubUsername := some "alice"
    gitlabUsername := some "alice"
    gitlabUserId := some 7
    mentionAliases := ["frontend-team"] }

/-- Test registry entry with a GitLab identity only. -/
def bobUser : UserConfig :=
  { name := "bob"
    teamsWebhookUrl := "https://teams.example/bob"
    githubUsername := none
    gitlabUsername := some "bob"
    gitlabUserId := some 999
    mentionAliases := ["bob-team"] }

/-- Empty raw body, to be overridden field by field. -/
def emptyBody : Body :=
  { action := none, pull_request := none, review := none, comment := none
    issue := none, sender_login := none, repository_full_name := none
    object_kind := none, object_attributes := none, merge_request := none
    user_username := none, project_path_with_namespace := none }

/-- Pull-request object of `ghMergeBody`. -/
def ghMergePR : PullRequestObj :=
  { merged := some true
    user_login := some "alice"
    title := some "Add feature"
    html_url := some "https://gh/pr/1"
    merged_by_login := none }

/-- GitHub payload: alice's PR was merged by carol. -/
def ghMergeBody : Body :=
  { emptyBody with
    action := some "closed"
    pull_request := some ghMergePR
    sender_login := some "carol"
    repository_full_name := some "org/repo" }

/-- GitHub payload: alice merged her own PR. -/
def ghSelfMergeBody : Body :=
  { emptyBody with
    action := some "closed"
    pull_request := some { merged := some true
                           user_login := some "alice"
                           title := some "Add feature"
                           html_url := some "https://gh/pr/1"
                           merged_by_login := some "alice" }
    sender_login := some "alice"
    repository_full_name := some "org/repo" }

/-- GitHub payload: carol approved alice's PR. -/
def ghReviewBody : Body :=
  { emptyBody with
    action := some "submitted"
    review := some { state := some "APPROVED"
                     user_login := some "carol"
                     body := some "nice" }
    pull_request := some { merged := none
                           user_login := some "alice"
                           title := some "Add feature"
                           html_url := some "https://gh/pr/1"
                           merged_by_login := none }
    repository_full_name := some "org/repo" }

/-- GitHub payload: alice approved her own PR. -/
def ghSelfReviewBody : Body :=
  { emptyBody with
    action := some "submitted"
    review := some { state := some "approved"
                     user_login := some "alice"
                     body := none }
    pull_request := some { merged := none
                           user_login := some "alice"
                           title := some "Add feature"
                           html_url := some "https://gh/pr/1"
                           merged_by_login := none }
    repository_full_name := some "org/repo" }

/-- GitHub review-line comment payload on a PR whose author login is absent
from the nested payload. -/
def ghNoAuthorCommentBody : Body :=
  { emptyBody with
    action := some "created"
    comment := some { user_login := some "carol"
                      body := some "please check"
                      html_url := some "https://gh/pr/1#c1"
                      path := some "src/a.js" }
    pull_request := some { merged := none
                           user_login := none
                           title := some "Add feature"
                           html_url := some "https://gh/pr/1"
                           merged_by_login := none }
    repository_full_name := some "org/repo" }

/-- GitLab note payload: carol comments on bob's MR mentioning @bob-team. -/
def glNoteBody : Body :=
  { emptyBody with
    object_kind := some "note"
    object_attributes := some { action := none
                                noteable_type := some "MergeRequest"
                                note := some "hey @bob-team check this"
                                url := some "https://gl/mr/2#n1"
                                author_id := none
                                title := none }
    merge_request := some { author_id := some 999
                            title := some "Fix bug"
                            url := some "https://gl/mr/2" }
    user_username := some "carol"
    project_path_with_namespace := some "grp/proj" }

/-- Comment event with a short body (truncation witness). -/
def shortCommentEvent : CommentEvent :=
  { source := .github, prAuthor := .str "alice", prTitle := "T"
    prUrl := "https://gh/pr/1", commentAuthor := "carol", commentBody := "hi"
    commentUrl := "https://gh/pr/1#c1", repoName := "org/repo", filePath := none }

/-- A 501-character body. -/
def longBody : String :=
  String.mk (List.replicate 501 'x')

/-- Comment event with a 501-character body (truncation witness). -/
def longCommentEvent : CommentEvent :=
  { source := .github, prAuthor := .str "alice", prTitle := "T"
    prUrl := "https://gh/pr/1", commentAuthor := "carol", commentBody := longBody
    commentUrl := "https://gh/pr/1#c1", repoName := "org/repo", filePath := none }

/-- Approval event with a short review body (truncation witness). -/
def shortApprovalEvent : ApprovalEvent :=
  { source := .github, state := "approved", prAuthor := .str "alice"
    prTitle := "T", prUrl := "https://gh/pr/1", reviewedBy := "carol"
    repoName := "org/repo", reviewBody := some "lgtm" }

/-- Normalized event of `ghMergeBody`. -/
def ghMergeEv : MergeEvent :=
  { source := .github, prAuthor := .str "alice", prTitle := "Add feature"
    prUrl := "https://gh/pr/1", mergedBy := "carol", repoName := "org/repo" }

/-- Normalized event of `ghReviewBody`. -/
def ghApprovalEv : ApprovalEvent :=
  { source := .github, state := "approved", prAuthor := .str "alice"
    prTitle := "Add feature", prUrl := "https://gh/pr/1", reviewedBy := "carol"
    repoName := "org/repo", reviewBody := some "nice" }

/-- Normalized event of `glNoteBody`. -/
def glNoteEv : CommentEvent :=
  { source := .gitlab, prAuthor := .num 999, prTitle := "Fix bug"
    prUrl := "https://gl/mr/2", commentAuthor := "carol"
    commentBody := "hey @bob-team check this", commentUrl := "https://gl/mr/2#n1"
    repoName := "grp/proj", filePath := none }

/-- GitLab comment event: alice comments on bob's MR mentioning both teams. -/
def glMixedEv : CommentEvent :=
  { source := .gitlab, prAuthor := .num 999, prTitle := "Fix bug"
    prUrl := "https://gl/mr/2", commentAuthor := "alice"
    commentBody := "cc @frontend-team @bob-team", commentUrl := "https://gl/mr/2#n2"
    repoName := "grp/proj", filePath := none }

/-- GitHub comment event: alice comments on her own PR. -/
def ghSelfCommentEv : CommentEvent :=
  { source := .github, prAuthor := .str "alice", prTitle := "Add feature"
    prUrl := "https://gh/pr/1", commentAuthor := "alice"
    commentBody := "ping", commentUrl := "https://gh/pr/1#c2"
    repoName := "org/repo", filePath := none }

/-- Normalized event of `ghNoAuthorCommentBody` (review-line comment shape,
PR author login missing, hence the empty author identity). -/
def ghNoAuthorCommentEv : CommentEvent :=
  { source := .github, prAuthor := .str "", prTitle := "Add feature"
    prUrl := "https://gh/pr/1", commentAuthor := "carol"
    commentBody := "please check", commentUrl := "https://gh/pr/1#c1"
    repoName := "org/repo", filePath := some "src/a.js" }

/-- Normalized event of `ghSelfMergeBody` (alice merged her own PR). -/
def ghSelfMergeEv : MergeEvent :=
  { source := .github, prAuthor := .str "alice", prTitle := "Add feature"
    prUrl := "https://gh/pr/1", mergedBy := "alice", repoName := "org/repo" }

/-- Normalized event of `ghSelfReviewBody` (alice approved her own PR). -/
def ghSelfApprovalEv : ApprovalEvent :=
  { source := .github, state := "approved", prAuthor := .str "alice"
    prTitle := "Add feature", prUrl := "https://gh/pr/1", reviewedBy := "alice"
    repoName := "org/repo", reviewBody := some "" }

/-! Helper lemmas about the JavaScript string primitives. -/

/-- Lowering a character cannot produce `'@'` unless it already was `'@'`. -/
lemma toLower_eq_at (c : Char) (h : c.toLower = '@') : c = '@' := by
  unfold Char.toLower at h
  simp only at h
  split at h
  · rename_i hr
    have hv : Nat.isValidChar (c.toNat + 32) := Or.inl (by omega)
    rw [Char.ofNat, dif_pos hv] at h
    have h2 := congrArg Char.toNat h
    have h3 : (Char.ofNatAux (c.toNat + 32) hv).toNat = c.toNat + 32 := rfl
    have h4 : ('@' : Char).toNat = 64 := rfl
    omega
  · exact h

/-- Lowering is the character-wise map on the underlying data. -/
lemma jsToLower_data (s : String) : (jsToLower s).data = s.data.map Char.toLower := rfl

/-- Lowering produces the empty string only from the empty string. -/
lemma jsToLower_eq_empty (s : String) (h : jsToLower s = "") : s = "" := by
  have hd := congrArg String.data h
  rw [jsToLower_data] at hd
  have : s.data = [] := List.map_eq_nil_iff.mp hd
  cases s
  simp_all

/-- Digit characters produced by base-ten printing satisfy `isDigit`. -/
lemma digitChar_isDigit (n : Nat) (h : n < 10) : (Nat.digitChar n).isDigit = true := by
  interval_cases n <;> decide

/-- Every character that base-ten printing emits is a digit (or came from the
accumulator). -/
lemma toDigitsCore_mem (fuel : Nat) : ∀ (n : Nat) (ds : List Char) (c : Char),
    c ∈ Nat.toDigitsCore 10 fuel n ds → c ∈ ds ∨ c.isDigit = true := by
  induction fuel with
  | zero =>
      intro n ds c h
      rw [Nat.toDigitsCore] at h
      exact Or.inl h
  | succ fuel ih =>
      intro n ds c h
      rw [Nat.toDigitsCore] at h
      split at h
      · rcases List.mem_cons.mp h with h | h
        · exact Or.inr (h ▸ digitChar_isDigit _ (Nat.mod_lt _ (by norm_num)))
        · exact Or.inl h
      · rcases ih _ _ _ h with h | h
        · rcases List.mem_cons.mp h with h | h
          · exact Or.inr (h ▸ digitChar_isDigit _ (Nat.mod_lt _ (by norm_num)))
          · exact Or.inl h
        · exact Or.inr h

/-- Base-ten printing of a natural number never yields `"undefined"`. -/
lemma natRepr_ne_undefined (n : Nat) : Nat.repr n ≠ "undefined" := by
  intro h
  have hd : Nat.toDigits 10 n = "undefined".data := congrArg String.data h
  have hu : ('u' : Char) ∈ Nat.toDigits 10 n := by
    rw [hd]; decide
  rcases toDigitsCore_mem _ _ _ _ hu with h' | h'
  · simp at h'
  · exact absurd h' (by decide)

/-- JavaScript stringification of a JSON number never yields `"undefined"`. -/
lemma intToString_ne_undefined (n : Int) : toString n ≠ "undefined" := by
  cases n with
  | ofNat m => exact natRepr_ne_undefined m
  | negSucc m =>
      intro h
      have hd := congrArg String.data h
      rw [show toString (Int.negSucc m) = "-" ++ Nat.repr (m + 1) from rfl,
        String.data_append] at hd
      have : ('-' : Char) = 'u' := by
        have h9 : "undefined".data = 'u' :: "ndefined".data := rfl
        rw [h9] at hd
        exact (List.cons.injEq _ _ _ _ ▸ hd).1
      exact absurd this (by decide)

/-! Helper lemmas about the mention regexp `@name\b` (flag `i`). -/

/-- Searching succeeds on an extended string whenever it succeeds on the
suffix. -/
lemma testMention_append_of (name l₁ l₂ : List Char)
    (h : testMention name l₂ = true) : testMention name (l₁ ++ l₂) = true := by
  induction l₁ with
  | nil => exact h
  | cons c l₁ ih =>
      rw [List.cons_append, testMention, ih, Bool.or_true]

/-- An anchored match gives an unanchored one. -/
lemma testMention_of_matchAt (name chars : List Char)
    (h : matchMentionAt name chars = true) : testMention name chars = true := by
  cases chars with
  | nil => exact h
  | cons c rest => rw [testMention, h, Bool.true_or]

/-- The anchored match fails whenever the input does not start with `'@'`
(the pattern's first literal character). -/
lemma matchAt_eq_false_of_ne_at (name : List Char) (c : Char) (rest : List Char)
    (h : c ≠ '@') : matchMentionAt name (c :: rest) = false := by
  have hne : ¬ ('@' : Char).toLower = c.toLower := by
    intro he
    exact h (toLower_eq_at c (by
      rw [show ('@' : Char).toLower = '@' from rfl] at he
      exact he.symm))
  rw [matchMentionAt, matchCI, if_neg hne]

/-- Search fails on text that contains no `'@'` at all. -/
lemma testMention_eq_false_no_at (name : List Char) :
    ∀ l : List Char, '@' ∉ l → testMention name l = false := by
  intro l
  induction l with
  | nil =>
      intro _
      rw [testMention, matchMentionAt, matchCI]
  | cons c rest ih =>
      intro h
      rw [testMention, matchAt_eq_false_of_ne_at _ _ _ (fun he => h (he ▸ List.mem_cons_self c rest)),
        ih (fun hm => h (List.mem_cons_of_mem c hm)), Bool.or_false]

/-- Search over an `'@'`-free prefix reduces to search over the rest. -/
lemma testMention_append_no_at (name l₁ l₂ : List Char) (h₁ : '@' ∉ l₁)
    (h₂ : testMention name l₂ = false) : testMention name (l₁ ++ l₂) = false := by
  induction l₁ with
  | nil => exact h₂
  | cons c l₁ ih =>
      rw [List.cons_append, testMention,
        matchAt_eq_false_of_ne_at _ _ _ (fun he => h₁ (he ▸ List.mem_cons_self c l₁)),
        ih (fun hm => h₁ (List.mem_cons_of_mem c hm)), Bool.or_false]

/-! Helper lemmas relating the parsers: the guards of the three event kinds
are pairwise incompatible on any one payload. -/

/-- A GitHub review event forces `action = 'submitted'`. -/
lemma gh_review_action (b : Body) (ev : ApprovalEvent)
    (h : parseGitHubReviewEvent b = some ev) :
    b.action = some PR_REVIEW_SUBMITTED_ACTION := by
  by_cases hc : b.action = some PR_REVIEW_SUBMITTED_ACTION
  · exact hc
  · rw [parseGitHubReviewEvent, if_neg hc] at h
    exact absurd h (by simp)

/-- A GitHub issue-style comment event forces `action = 'created'`. -/
lemma gh_comment_action (b : Body) (p : CommentEvent)
    (h : parseGitHubPayload b = some p) :
    b.action = some COMMENT_CREATED_ACTION := by
  by_cases hc : b.action = some COMMENT_CREATED_ACTION
  · exact hc
  · rw [parseGitHubPayload, if_neg hc] at h
    exact absurd h (by simp)

/-- A GitHub review-line comment event forces `action = 'created'`. -/
lemma gh_review_comment_action (b : Body) (p : CommentEvent)
    (h : parseGitHubReviewPayload b = some p) :
    b.action = some COMMENT_CREATED_ACTION := by
  by_cases hc : b.action = some COMMENT_CREATED_ACTION
  · exact hc
  · rw [parseGitHubReviewPayload, if_neg hc] at h
    exact absurd h (by simp)

/-- A GitLab approval event forces the `object_attributes.action` to be
`'approved'`. -/
lemma gl_approval_action (b : Body) (ev : ApprovalEvent)
    (h : parseGitLabApprovalEvent b = some ev) :
    (b.object_attributes.bind fun oa => oa.action) = some APPROVED_ACTION := by
  by_cases hk : b.object_kind = some MERGE_REQUEST_OBJECT_KIND
  · by_cases hc : (b.object_attributes.bind fun oa => oa.action) = some APPROVED_ACTION
    · exact hc
    · rw [parseGitLabApprovalEvent, if_pos hk, if_neg hc] at h
      exact absurd h (by simp)
  · rw [parseGitLabApprovalEvent, if_neg hk] at h
    exact absurd h (by simp)

/-- A GitLab note event forces `object_kind = 'note'`. -/
lemma gl_comment_kind (b : Body) (p : CommentEvent)
    (h : parseGitLabPayload b = some p) :
    b.object_kind = some NOTE_OBJECT_KIND := by
  by_cases hc : b.object_kind = some NOTE_OBJECT_KIND
  · exact hc
  · rw [parseGitLabPayload, if_neg hc] at h
    exact absurd h (by simp)

/-- On a payload recognized as an approval event, the merge parser finds
nothing (their guards are incompatible). -/
lemma parseMergeEvent_none_of_approval (source : Source) (data : Body)
    (ev : ApprovalEvent) (h : parseApprovalEvent source data = some ev) :
    parseMergeEvent source data = none := by
  cases source with
  | github =>
      have ha := gh_review_action data ev h
      rw [parseMergeEvent, parseGitHubMergeEvent, if_neg (by
        rw [ha]
        simp [PR_REVIEW_SUBMITTED_ACTION, PR_CLOSED_ACTION])]
  | gitlab =>
      have ha := gl_approval_action data ev h
      rw [parseMergeEvent, parseGitLabMergeEvent]
      split
      · rw [if_neg (by
          rw [ha]
          simp [APPROVED_ACTION, MERGE_ACTION])]
      · rfl

/-- On a payload recognized as a comment event, the merge parser finds
nothing. -/
lemma parseMergeEvent_none_of_comment (source : Source) (data : Body)
    (p : CommentEvent) (h : parseCommentEvent source data = some p) :
    parseMergeEvent source data = none := by
  cases source with
  | github =>
      have ha : data.action = some COMMENT_CREATED_ACTION := by
        rw [parseCommentEvent] at h
        rcases hrv : parseGitHubReviewPayload data with _ | q
        · rw [hrv] at h
          simp only [Option.orElse] at h
          exact gh_comment_action data p h
        · exact gh_review_comment_action data q hrv
      rw [parseMergeEvent, parseGitHubMergeEvent, if_neg (by
        rw [ha]
        simp [COMMENT_CREATED_ACTION, PR_CLOSED_ACTION])]
  | gitlab =>
      have hk := gl_comment_kind data p h
      rw [parseMergeEvent, parseGitLabMergeEvent, if_neg (by
        rw [hk]
        simp [NOTE_OBJECT_KIND, MERGE_REQUEST_OBJECT_KIND])]

/-- On a payload recognized as a comment event, the approval parser finds
nothing. -/
lemma parseApprovalEvent_none_of_comment (source : Source) (data : Body)
    (p : CommentEvent) (h : parseCommentEvent source data = some p) :
    parseApprovalEvent source data = none := by
  cases source with
  | github =>
      have ha : data.action = some COMMENT_CREATED_ACTION := by
        rw [parseCommentEvent] at h
        rcases hrv : parseGitHubReviewPayload data with _ | q
        · rw [hrv] at h
          simp only [Option.orElse] at h
          exact gh_comment_action data p h
        · exact gh_review_comment_action data q hrv
      rw [parseApprovalEvent, parseGitHubReviewEvent, if_neg (by
        rw [ha]
        simp [COMMENT_CREATED_ACTION, PR_REVIEW_SUBMITTED_ACTION])]
  | gitlab =>
      have hk := gl_comment_kind data p h
      rw [parseApprovalEvent, parseGitLabApprovalEvent, if_neg (by
        rw [hk]
        simp [NOTE_OBJECT_KIND, MERGE_REQUEST_OBJECT_KIND])]

/-! Helper lemmas about the mention pass of the comment branch. -/

/-- List membership from a `contains` check. -/
lemma mem_of_contains_eq_true (l : List String) (x : String)
    (h : l.contains x = true) : x ∈ l :=
  List.elem_iff.mp h

/-- Non-membership from a failed `contains` check. -/
lemma not_mem_of_contains_eq_false (l : List String) (x : String)
    (h : l.contains x = false) : x ∉ l := by
  intro hmem
  rw [show l.contains x = l.elem x from rfl, List.elem_eq_true_of_mem hmem] at h
  simp at h

/-- The mention step skips the comment's author when self-comments are
disallowed. -/
lemma mentionStep_eq_of_auth (a : Bool) (d : Card → String → Bool) (s : Source)
    (p : CommentEvent) (acc : List NotifEntry × List String × List (Card × String))
    (m : UserConfig × String)
    (h : (!a && isCommentAuthor m.1 s p.commentAuthor) = true) :
    mentionStep a d s p acc m = acc := by
  rw [mentionStep, if_pos h]

/-- The mention step skips a user already notified. -/
lemma mentionStep_eq_of_contains (a : Bool) (d : Card → String → Bool) (s : Source)
    (p : CommentEvent) (acc : List NotifEntry × List String × List (Card × String))
    (m : UserConfig × String)
    (h1 : (!a && isCommentAuthor m.1 s p.commentAuthor) = false)
    (h2 : acc.2.1.contains m.1.name = true) :
    mentionStep a d s p acc m = acc := by
  rw [mentionStep, if_neg (by simp [h1]), if_pos h2]

/-- The mention step otherwise records a mention notification. -/
lemma mentionStep_eq_of_send (a : Bool) (d : Card → String → Bool) (s : Source)
    (p : CommentEvent) (acc : List NotifEntry × List String × List (Card × String))
    (m : UserConfig × String)
    (h1 : (!a && isCommentAuthor m.1 s p.commentAuthor) = false)
    (h2 : acc.2.1.contains m.1.name = false) :
    mentionStep a d s p acc m =
      (acc.1 ++ [mentionEntry d p m], acc.2.1 ++ [m.1.name],
        acc.2.2 ++ (sendToTeams d (createMentionCard p m.2) m.1.teamsWebhookUrl).2) := by
  rw [mentionStep, if_neg (by simp [h1]), if_neg (by rw [h2]; simp)]
  rfl

/-- Shape of the mention pass: it appends a block of mention entries whose
names extend the notified set in lockstep; every appended entry names a
mentioned user that was not already notified on entry and that passed the
self-comment check. -/
lemma mentionFold_shape (a : Bool) (d : Card → String → Bool) (s : Source)
    (p : CommentEvent) :
    ∀ (ms : List (UserConfig × String))
      (acc : List NotifEntry × List String × List (Card × String)),
      ∃ t : List NotifEntry,
        (ms.foldl (mentionStep a d s p) acc).1 = acc.1 ++ t ∧
        (ms.foldl (mentionStep a d s p) acc).2.1 =
          acc.2.1 ++ t.map (fun e => e.user) ∧
        ∀ e ∈ t, e.type = "mention" ∧ e.user ∉ acc.2.1 ∧
          ∃ w al, (w, al) ∈ ms ∧ e.user = w.name ∧
            (a = true ∨ isCommentAuthor w s p.commentAuthor = false) := by
  intro ms
  induction ms with
  | nil =>
      intro acc
      exact ⟨[], by simp, by simp, by simp⟩
  | cons m ms ih =>
      intro acc
      rw [List.foldl_cons]
      by_cases h1 : (!a && isCommentAuthor m.1 s p.commentAuthor) = true
      · rw [mentionStep_eq_of_auth a d s p acc m h1]
        obtain ⟨t, ht1, ht2, ht3⟩ := ih acc
        refine ⟨t, ht1, ht2, fun e he => ?_⟩
        obtain ⟨hty, hnm, w, al, hw, hn, hc⟩ := ht3 e he
        exact ⟨hty, hnm, w, al, List.mem_cons_of_mem m hw, hn, hc⟩
      · have h1' : (!a && isCommentAuthor m.1 s p.commentAuthor) = false := by
          simpa using h1
        by_cases h2 : acc.2.1.contains m.1.name = true
        · rw [mentionStep_eq_of_contains a d s p acc m h1' h2]
          obtain ⟨t, ht1, ht2, ht3⟩ := ih acc
          refine ⟨t, ht1, ht2, fun e he => ?_⟩
          obtain ⟨hty, hnm, w, al, hw, hn, hc⟩ := ht3 e he
          exact ⟨hty, hnm, w, al, List.mem_cons_of_mem m hw, hn, hc⟩
        · have h2' : acc.2.1.contains m.1.name = false := by simpa using h2
          rw [mentionStep_eq_of_send a d s p acc m h1' h2']
          obtain ⟨t, ht1, ht2, ht3⟩ := ih
            (acc.1 ++ [mentionEntry d p m], acc.2.1 ++ [m.1.name],
              acc.2.2 ++ (sendToTeams d (createMentionCard p m.2)
                m.1.teamsWebhookUrl).2)
          refine ⟨mentionEntry d p m :: t, ?_, ?_, ?_⟩
          · rw [ht1]
            simp
          · rw [ht2]
            simp [mentionEntry]
          · intro e he
            rcases List.mem_cons.mp he with rfl | he'
            · refine ⟨rfl, not_mem_of_contains_eq_false _ _ h2', m.1, m.2, ?_, rfl, ?_⟩
              · rw [Prod.mk.eta]
                exact List.mem_cons_self m ms
              · cases ha : a with
                | true => exact Or.inl rfl
                | false =>
                    rw [ha] at h1'
                    simp at h1'
                    exact Or.inr h1'
            · obtain ⟨hty, hnm, w, al, hw, hn, hc⟩ := ht3 e he'
              refine ⟨hty, fun hmem => hnm (List.mem_append_left _ hmem),
                w, al, List.mem_cons_of_mem m hw, hn, hc⟩

/-- The mention pass preserves distinctness of the notified-name set. -/
lemma mentionFold_nodup (a : Bool) (d : Card → String → Bool) (s : Source)
    (p : CommentEvent) :
    ∀ (ms : List (UserConfig × String))
      (acc : List NotifEntry × List String × List (Card × String)),
      acc.2.1.Nodup → (ms.foldl (mentionStep a d s p) acc).2.1.Nodup := by
  intro ms
  induction ms with
  | nil =>
      intro acc h
      simpa using h
  | cons m ms ih =>
      intro acc h
      rw [List.foldl_cons]
      by_cases h1 : (!a && isCommentAuthor m.1 s p.commentAuthor) = true
      · rw [mentionStep_eq_of_auth a d s p acc m h1]
        exact ih acc h
      · have h1' : (!a && isCommentAuthor m.1 s p.commentAuthor) = false := by
          simpa using h1
        by_cases h2 : acc.2.1.contains m.1.name = true
        · rw [mentionStep_eq_of_contains a d s p acc m h1' h2]
          exact ih acc h
        · have h2' : acc.2.1.contains m.1.name = false := by simpa using h2
          rw [mentionStep_eq_of_send a d s p acc m h1' h2']
          apply ih
          rw [List.nodup_append]
          refine ⟨h, List.nodup_singleton _, ?_⟩
          intro x hx hx'
          rw [List.mem_singleton] at hx'
          subst hx'
          exact not_mem_of_contains_eq_false _ _ h2' hx

/-- The notified-name set only grows along the mention pass. -/
lemma mentionFold_mono (a : Bool) (d : Card → String → Bool) (s : Source)
    (p : CommentEvent) (ms : List (UserConfig × String))
    (acc : List NotifEntry × List String × List (Card × String)) (x : String)
    (h : x ∈ acc.2.1) : x ∈ (ms.foldl (mentionStep a d s p) acc).2.1 := by
  obtain ⟨t, _, ht2, _⟩ := mentionFold_shape a d s p ms acc
  rw [ht2]
  exact List.mem_append_left _ h

/-- Every mentioned user that passes the self-comment check ends up in the
notified-name set after the mention pass. -/
lemma mentionFold_covers (a : Bool) (d : Card → String → Bool) (s : Source)
    (p : CommentEvent) :
    ∀ (ms : List (UserConfig × String))
      (acc : List NotifEntry × List String × List (Card × String))
      (w : UserConfig) (al : String), (w, al) ∈ ms →
      (a = true ∨ isCommentAuthor w s p.commentAuthor = false) →
      w.name ∈ (ms.foldl (mentionStep a d s p) acc).2.1 := by
  intro ms
  induction ms with
  | nil =>
      intro acc w al h _
      simp at h
  | cons m ms ih =>
      intro acc w al hmem hc
      rw [List.foldl_cons]
      rcases List.mem_cons.mp hmem with heq | hmem'
      · have hm1 : m.1 = w := by rw [← heq]
        by_cases h1 : (!a && isCommentAuthor m.1 s p.commentAuthor) = true
        · exfalso
          rcases hc with ha | hauth
          · rw [ha] at h1
            simp at h1
          · rw [hm1, hauth] at h1
            simp at h1
        · have h1' : (!a && isCommentAuthor m.1 s p.commentAuthor) = false := by
            simpa using h1
          by_cases h2 : acc.2.1.contains m.1.name = true
          · rw [mentionStep_eq_of_contains a d s p acc m h1' h2]
            apply mentionFold_mono
            rw [← hm1]
            exact mem_of_contains_eq_true _ _ h2
          · have h2' : acc.2.1.contains m.1.name = false := by simpa using h2
            rw [mentionStep_eq_of_send a d s p acc m h1' h2']
            apply mentionFold_mono
            rw [hm1]
            exact List.mem_append_right _ (List.mem_singleton.mpr rfl)
      · exact ih (mentionStep a d s p acc m) w al hmem' hc

/-- Membership facts carried by `findMentionedUsers`: a returned pair names a
registered user together with the first of their watch-names that matches the
comment body. -/
lemma findMentionedUsers_mem (users : List UserConfig) (body : String)
    (source : Source) (w : UserConfig) (al : String)
    (h : (w, al) ∈ findMentionedUsers users body source) :
    w ∈ users ∧
      (watchNames w source).find? (fun n => testMentionStr n body) = some al := by
  rw [findMentionedUsers] at h
  split at h
  · simp at h
  · obtain ⟨u, hu, heq⟩ := List.mem_filterMap.mp h
    rcases hf : (watchNames u source).find? fun n => testMentionStr n body with _ | n
    · rw [hf] at heq
      simp at heq
    · rw [hf] at heq
      simp at heq
      obtain ⟨hw, hal⟩ := heq
      subst hw
      subst hal
      exact ⟨hu, hf⟩

/-- Decomposition of `commentAccum`: it is the mention pass run from an
initial accumulator that contains the owner notification exactly when the
owner exists and passes the self-comment check. -/
lemma commentAccum_split (users : List UserConfig) (a : Bool)
    (d : Card → String → Bool) (s : Source) (p : CommentEvent) :
    ∃ init : List NotifEntry × List String × List (Card × String),
      commentAccum users a d s p =
        (findMentionedUsers users p.commentBody s).foldl
          (mentionStep a d s p) init ∧
      init.2.1 = init.1.map (fun e => e.user) ∧
      init.2.1.Nodup ∧
      (∀ e ∈ init.1, e.type = "comment" ∧
        ∃ o, findPROwner users s p.prAuthor = some o ∧ e.user = o.name ∧
          (a = true ∨ isCommentAuthor o s p.commentAuthor = false)) ∧
      (∀ o, findPROwner users s p.prAuthor = some o →
        (a = true ∨ isCommentAuthor o s p.commentAuthor = false) →
        init.1 = [ownerEntry d p o] ∧ init.2.1 = [o.name]) := by
  rcases hfind : findPROwner users s p.prAuthor with _ | o
  · refine ⟨([], [], []), ?_, rfl, List.nodup_nil, ?_, ?_⟩
    · rw [commentAccum, hfind]
    · intro e he
      simp at he
    · intro o h
      exact absurd h (by simp)
  · by_cases hcond : (a || !isCommentAuthor o s p.commentAuthor) = true
    · refine ⟨([ownerEntry d p o], [o.name],
        (sendToTeams d (createAdaptiveCard p) o.teamsWebhookUrl).2),
        ?_, rfl, List.nodup_singleton _, ?_, ?_⟩
      · rw [commentAccum, hfind]
        simp only [if_pos hcond]
        rfl
      · intro e he
        rw [List.mem_singleton] at he
        subst he
        refine ⟨rfl, o, rfl, rfl, ?_⟩
        have hc := hcond
        rw [Bool.or_eq_true] at hc
        rcases hc with ha | hauth
        · exact Or.inl ha
        · exact Or.inr (by simpa using hauth)
      · intro o' h _
        have : o = o' := Option.some.inj h
        subst this
        exact ⟨rfl, rfl⟩
    · refine ⟨([], [], []), ?_, rfl, List.nodup_nil, ?_, ?_⟩
      · rw [commentAccum, hfind]
        simp only [if_neg hcond]
      · intro e he
        simp at he
      · intro o' h hc
        have : o = o' := Option.some.inj h
        subst this
        exfalso
        apply hcond
        rcases hc with ha | hauth
        · rw [ha]
          rfl
        · rw [hauth]
          simp

/-- Claim C1: event classification tries kinds in strict priority order
merge → review/approval → comment.  When the payload parses as a merge
event, the response is exactly that of the merge branch (the review and
comment parsers cannot influence it); when it parses as a review/approval
event, the response is exactly that of the approval branch (the comment
parsers cannot influence it). -/
theorem classification_strict_priority :
    ∀ (users : List UserConfig) (allowSelfComments : Bool)
      (deliver : Card → String → Bool) (source : Source) (data : Body),
      (∀ mergeEvent, parseMergeEvent source data = some mergeEvent →
        processWebhook users allowSelfComments deliver source data =
          handleMerge users deliver source mergeEvent) ∧
      (∀ approvalEvent, parseApprovalEvent source data = some approvalEvent →
        processWebhook users allowSelfComments deliver source data =
          handleApproval users deliver source approvalEvent) := by
  intro users a d source data
  constructor
  · intro ev h
    rw [processWebhook, h]
  · intro ev h
    rw [processWebhook, parseMergeEvent_none_of_approval source data ev h, h]

/-- Evaluation witness for `classification_strict_priority` at concrete
merge and review payloads. -/
theorem classification_strict_priority_witness :
    processWebhook [aliceUser] false (fun _ _ => true) .github ghMergeBody =
      handleMerge [aliceUser] (fun _ _ => true) .github ghMergeEv ∧
    processWebhook [aliceUser] false (fun _ _ => true) .github ghReviewBody =
      handleApproval [aliceUser] (fun _ _ => true) .github ghApprovalEv :=
  ⟨(classification_strict_priority [aliceUser] false (fun _ _ => true) .github
      ghMergeBody).1 ghMergeEv (by decide),
    (classification_strict_priority [aliceUser] false (fun _ _ => true) .github
      ghReviewBody).2 ghApprovalEv (by decide)⟩

/-- Claim C2: for every comment event each configured user appears at most
once in the list of attempted notifications (the recipient names are
pairwise distinct), and a user who qualifies both as PR owner and as a
mentioned party receives exactly one notification, in the owner variant:
exactly one entry bears the owner's name, and any entry bearing the owner's
name is the `"comment"` (owner) variant, never `"mention"`. -/
theorem comment_dedup_owner_precedence :
    ∀ (users : List UserConfig) (allowSelfComments : Bool)
      (deliver : Card → String → Bool) (source : Source) (parsed : CommentEvent),
      (((commentAccum users allowSelfComments deliver source parsed).1.map
          (fun e => e.user)).Nodup) ∧
      (∀ prOwner, findPROwner users source parsed.prAuthor = some prOwner →
        (allowSelfComments = true ∨
          isCommentAuthor prOwner source parsed.commentAuthor = false) →
        ((commentAccum users allowSelfComments deliver source parsed).1.filter
            (fun e => e.user == prOwner.name)).length = 1 ∧
        ∀ e ∈ (commentAccum users allowSelfComments deliver source parsed).1,
          e.user = prOwner.name → e.type = "comment") := by
  intro users a d s p
  obtain ⟨init, heq, hnames, hnodup, hinit, howner⟩ := commentAccum_split users a d s p
  obtain ⟨t, ht1, ht2, ht3⟩ :=
    mentionFold_shape a d s p (findMentionedUsers users p.commentBody s) init
  have hcor : (commentAccum users a d s p).2.1 =
      (commentAccum users a d s p).1.map (fun e => e.user) := by
    rw [heq, ht1, ht2, hnames, List.map_append]
  constructor
  · rw [← hcor, heq]
    exact mentionFold_nodup a d s p _ init hnodup
  · intro o hfind hcond
    obtain ⟨h1, h2⟩ := howner o hfind hcond
    constructor
    · rw [heq, ht1, h1, List.filter_append]
      have hone : List.filter (fun e => e.user == o.name) [ownerEntry d p o] =
          [ownerEntry d p o] := by
        simp [ownerEntry]
      have hzero : List.filter (fun e => e.user == o.name) t = [] := by
        rw [List.filter_eq_nil_iff]
        intro e he
        have hni := (ht3 e he).2.1
        rw [h2] at hni
        simp only [List.mem_singleton] at hni
        simpa using hni
      rw [hone, hzero]
      rfl
    · intro e he hu
      rw [heq, ht1, h1] at he
      rcases List.mem_append.mp he with he | he
      · rw [List.mem_singleton] at he
        subst he
        rfl
      · exfalso
        have hni := (ht3 e he).2.1
        rw [h2] at hni
        exact hni (by rw [hu]; exact List.mem_singleton.mpr rfl)

/-- Evaluation witness for `comment_dedup_owner_precedence`: in the GitLab
note scenario where bob is both the MR owner and mentioned via `@bob-team`,
exactly one entry bears bob's name. -/
theorem comment_dedup_owner_precedence_witness :
    ((commentAccum [bobUser] false (fun _ _ => true) .gitlab glNoteEv).1.filter
        (fun e => e.user == bobUser.name)).length = 1 :=
  ((comment_dedup_owner_precedence [bobUser] false (fun _ _ => true) .gitlab
      glNoteEv).2 bobUser (by decide) (by decide)).1

/-- Claim C3: with the self-comments flag disabled, a user who authored the
comment (platform username compared case-insensitively) receives no
notification — no entry bears their name, neither as owner nor for a
mention (registry names assumed distinct, as the configuration requires);
with the flag enabled such self-notifications are delivered: the resolved
owner always gets the owner-variant entry, and every mentioned user gets an
entry bearing their name. -/
theorem self_comment_suppression :
    ∀ (users : List UserConfig) (deliver : Card → String → Bool)
      (source : Source) (parsed : CommentEvent),
      ((users.map (fun u => u.name)).Nodup →
        ∀ u ∈ users, isCommentAuthor u source parsed.commentAuthor = true →
          ∀ e ∈ (commentAccum users false deliver source parsed).1,
            e.user ≠ u.name) ∧
      (∀ prOwner, findPROwner users source parsed.prAuthor = some prOwner →
        ∃ e ∈ (commentAccum users true deliver source parsed).1,
          e.user = prOwner.name ∧ e.type = "comment") ∧
      (∀ w al, (w, al) ∈ findMentionedUsers users parsed.commentBody source →
        ∃ e ∈ (commentAccum users true deliver source parsed).1,
          e.user = w.name) := by
  intro users d s p
  refine ⟨?_, ?_, ?_⟩
  · intro hnd u hu hau e he hne
    obtain ⟨init, heq, hnames, hnodup, hinit, howner⟩ :=
      commentAccum_split users false d s p
    obtain ⟨t, ht1, ht2, ht3⟩ := mentionFold_shape false d s p _ init
    rw [heq, ht1] at he
    have hinj := List.inj_on_of_nodup_map hnd
    rcases List.mem_append.mp he with he | he
    · obtain ⟨hty, o, hfind, huser, hcase⟩ := hinit e he
      rcases hcase with hfalse | hauth
      · exact absurd hfalse (by simp)
      · have ho : o ∈ users := List.mem_of_find?_eq_some hfind
        have hou : o = u := hinj ho hu (huser ▸ hne)
        rw [hou, hau] at hauth
        exact absurd hauth (by simp)
    · obtain ⟨hty, hnm, w, al, hw, hn, hc⟩ := ht3 e he
      rcases hc with hfalse | hauth
      · exact absurd hfalse (by simp)
      · have hwu : w ∈ users :=
          (findMentionedUsers_mem users p.commentBody s w al hw).1
        have hou : w = u := hinj hwu hu (hn ▸ hne)
        rw [hou, hau] at hauth
        exact absurd hauth (by simp)
  · intro o hfind
    obtain ⟨init, heq, hnames, hnodup, hinit, howner⟩ :=
      commentAccum_split users true d s p
    obtain ⟨h1, h2⟩ := howner o hfind (Or.inl rfl)
    obtain ⟨t, ht1, ht2, ht3⟩ := mentionFold_shape true d s p _ init
    refine ⟨ownerEntry d p o, ?_, rfl, rfl⟩
    rw [heq, ht1, h1]
    exact List.mem_append_left _ (List.mem_singleton.mpr rfl)
  · intro w al hw
    obtain ⟨init, heq, hnames, hnodup, hinit, howner⟩ :=
      commentAccum_split users true d s p
    have hcov := mentionFold_covers true d s p _ init w al hw (Or.inl rfl)
    obtain ⟨t, ht1, ht2, ht3⟩ := mentionFold_shape true d s p _ init
    rw [ht2, hnames, ← List.map_append, ← ht1] at hcov
    obtain ⟨e, he, heq2⟩ := List.mem_map.mp hcov
    exact ⟨e, by rw [heq]; exact he, heq2⟩

/-- Evaluation witness for `self_comment_suppression`: alice's self-comment
mentioning her own alias yields no entry in her name while bob's owner
entry is untouched, and with the flag enabled the owner entry for alice's
self-comment is delivered. -/
theorem self_comment_suppression_witness :
    (ownerEntry (fun _ _ => true) glMixedEv bobUser).user ≠ aliceUser.name ∧
    ∃ e ∈ (commentAccum [aliceUser] true (fun _ _ => true) .github
        ghSelfCommentEv).1, e.user = aliceUser.name ∧ e.type = "comment" :=
  ⟨(self_comment_suppression [aliceUser, bobUser] (fun _ _ => true) .gitlab
      glMixedEv).1 (by decide) aliceUser (by decide) (by decide)
      (ownerEntry (fun _ _ => true) glMixedEv bobUser) (by decide),
    (self_comment_suppression [aliceUser] (fun _ _ => true) .github
      ghSelfCommentEv).2.1 aliceUser (by decide)⟩

/-- Claim C4, counterexample: over a registry containing a user with no
GitHub username configured, a GitHub event whose PR author field is missing
(empty author identity) RESOLVES that user as owner — the lodash default
`''` on both sides compares equal — and an owner-role notification is
attempted, contradicting the claim's "over any user registry finds no
owner". -/
theorem missing_author_owner_match_cex :
    findPROwner [bobUser] .github (.str "") = some bobUser ∧
    (processWebhook [bobUser] false (fun _ _ => true) .github
        ghNoAuthorCommentBody).2 =
      [(createAdaptiveCard ghNoAuthorCommentEv, bobUser.teamsWebhookUrl)] := by
  decide

/-- Claim C4, amended: an event with an absent or empty PR author identity
resolves no owner, PROVIDED every registered user has a non-empty GitHub
username (for GitHub-sourced events); for GitLab-sourced events with an
absent author id (`undefined`) this holds over every registry, since a
numeric user id never stringifies to `"undefined"`. -/
theorem missing_author_no_owner :
    (∀ users : List UserConfig, (∀ u ∈ users, u.githubUsername.getD "" ≠ "") →
      findPROwner users .github (.str "") = none) ∧
    (∀ users : List UserConfig, findPROwner users .gitlab .undefinedVal = none) := by
  constructor
  · intro users h
    simp only [findPROwner]
    rw [List.find?_eq_none]
    intro u hu hbeq
    have heq := eq_of_beq hbeq
    have h0 : jsToLower (jsValToString (JSVal.str "")) = "" := rfl
    rw [h0] at heq
    exact h u hu (jsToLower_eq_empty _ heq.symm)
  · intro users
    simp only [findPROwner]
    rw [List.find?_eq_none]
    intro u hu hbeq
    have heq := eq_of_beq hbeq
    have h0 : jsToLower (jsValToString JSVal.undefinedVal) = "undefined" := rfl
    rw [h0] at heq
    rcases hid : u.gitlabUserId with _ | n
    · rw [hid] at heq
      exact absurd heq.symm (by decide)
    · rw [hid] at heq
      exact intToString_ne_undefined n heq.symm

/-- Evaluation witness for `missing_author_no_owner` on concrete
registries. -/
theorem missing_author_no_owner_witness :
    findPROwner [aliceUser] .github (.str "") = none ∧
    findPROwner [aliceUser, bobUser] .gitlab .undefinedVal = none :=
  ⟨missing_author_no_owner.1 [aliceUser] (by decide),
    missing_author_no_owner.2 [aliceUser, bobUser]⟩

/-- Claim C5: mention detection tests each watch-name (platform username
plus aliases, empty entries dropped) for an `@name` occurrence with a
word-boundary-delimited, case-insensitive match.  Any body containing the
mention `@Frontend-Team` (followed by a non-word character or the end of
the text, which is what an occurrence of that mention is) matches the alias
`frontend-team`; a body whose only at-sign occurrence is `@frontend-teams`
does not; and the recorded alias is the first watch-name that matches. -/
theorem mention_word_boundary :
    (∀ pre post : String,
      (∀ c, post.data.head? = some c → isWordChar c = false) →
      testMentionStr "frontend-team" (pre ++ "@Frontend-Team" ++ post) = true) ∧
    (∀ pre post : String, '@' ∉ pre.data → '@' ∉ post.data →
      testMentionStr "frontend-team" (pre ++ "@frontend-teams" ++ post) = false) ∧
    (∀ (users : List UserConfig) (source : Source) (body : String)
      (w : UserConfig) (al : String),
      (w, al) ∈ findMentionedUsers users body source →
      (watchNames w source).find? (fun n => testMentionStr n body) = some al ∧
      testMentionStr al body = true) := by
  refine ⟨?_, ?_, ?_⟩
  · intro pre post h
    rw [testMentionStr]
    have hdata : (pre ++ "@Frontend-Team" ++ post).data =
        pre.data ++ ("@Frontend-Team".data ++ post.data) := by
      rw [String.data_append, String.data_append, List.append_assoc]
    rw [hdata]
    apply testMention_append_of
    apply testMention_of_matchAt
    have hm : matchMentionAt "frontend-team".data
        ("@Frontend-Team".data ++ post.data) =
        boundaryAfter 'm' post.data := rfl
    rw [hm]
    cases hp : post.data with
    | nil => rfl
    | cons c tl =>
        have hc := h c (by rw [hp]; rfl)
        simp [boundaryAfter, hc]
        decide
  · intro pre post h1 h2
    rw [testMentionStr]
    have hdata : (pre ++ "@frontend-teams" ++ post).data =
        pre.data ++ ("@frontend-teams".data ++ post.data) := by
      rw [String.data_append, String.data_append, List.append_assoc]
    rw [hdata]
    apply testMention_append_no_at _ _ _ h1
    have hsplit : "@frontend-teams".data ++ post.data =
        '@' :: ("frontend-teams".data ++ post.data) := rfl
    rw [hsplit, testMention]
    have hm : matchMentionAt "frontend-team".data
        ('@' :: ("frontend-teams".data ++ post.data)) = false := rfl
    rw [hm, Bool.false_or]
    apply testMention_append_no_at _ _ _ (by decide)
    exact testMention_eq_false_no_at _ _ h2
  · intro users source body w al h
    have hmem := findMentionedUsers_mem users body source w al h
    have h2 := List.find?_some hmem.2
    exact ⟨hmem.2, by simpa using h2⟩

/-- Evaluation witness for `mention_word_boundary` on the spec's example
bodies and a concrete registry. -/
theorem mention_word_boundary_witness :
    testMentionStr "frontend-team"
      ("cc " ++ "@Frontend-Team" ++ " please review") = true ∧
    testMentionStr "frontend-team" ("cc " ++ "@frontend-teams" ++ "") = false ∧
    (watchNames aliceUser .github).find?
      (fun n => testMentionStr n "cc @Frontend-Team please review") =
        some "frontend-team" :=
  ⟨mention_word_boundary.1 "cc " " please review"
      (by
        intro c hc
        rw [show (" please review".data.head?) = some ' ' from rfl] at hc
        injection hc with h
        subst h
        decide),
    mention_word_boundary.2.1 "cc " "" (by decide) (by decide),
    (mention_word_boundary.2.2 [aliceUser] .github
      "cc @Frontend-Team please review" aliceUser "frontend-team" (by decide)).1⟩

/-- Claim C6: the composed message carries the comment/review body truncated
to exactly its first 500 characters plus the ellipsis marker when the body
exceeds 500 characters, and the body unchanged when its length is at most
500 (both for owner comment cards and for review cards with a non-empty
review body). -/
theorem body_truncation :
    ∀ (d : CommentEvent) (a : ApprovalEvent) (rb : String),
      (d.commentBody.length ≤ 500 →
        (createAdaptiveCard d).bodyText = some d.commentBody) ∧
      (d.commentBody.length > 500 →
        (createAdaptiveCard d).bodyText =
          some (jsSubstring d.commentBody 500 ++ "...") ∧
        (jsSubstring d.commentBody 500).length = 500) ∧
      (a.reviewBody = some rb → rb ≠ "" →
        (rb.length ≤ 500 → (createApprovalCard a).bodyText = some rb) ∧
        (rb.length > 500 → (createApprovalCard a).bodyText =
          some (jsSubstring rb 500 ++ "..."))) := by
  intro d a rb
  refine ⟨?_, ?_, ?_⟩
  · intro h
    have hn : ¬ (d.commentBody.length > 500) := by omega
    simp [createAdaptiveCard, hn]
  · intro h
    constructor
    · simp [createAdaptiveCard, h]
    · show (d.commentBody.data.take 500).length = 500
      rw [List.length_take]
      have hlen : d.commentBody.data.length = d.commentBody.length := rfl
      omega
  · intro hrb hne
    constructor
    · intro h
      have hn : ¬ (rb.length > 500) := by omega
      simp [createApprovalCard, hrb, jsTruthyStr, hne, hn]
    · intro h
      simp [createApprovalCard, hrb, jsTruthyStr, hne, h]

/-- Evaluation witness for `body_truncation` at a short and a 501-character
body. -/
theorem body_truncation_witness :
    (createAdaptiveCard shortCommentEvent).bodyText = some "hi" ∧
    (createAdaptiveCard longCommentEvent).bodyText =
      some (jsSubstring longBody 500 ++ "...") ∧
    (createApprovalCard shortApprovalEvent).bodyText = some "lgtm" :=
  ⟨(body_truncation shortCommentEvent shortApprovalEvent "lgtm").1 (by decide),
    ((body_truncation longCommentEvent shortApprovalEvent "lgtm").2.1
      (by decide)).1,
    ((body_truncation shortCommentEvent shortApprovalEvent "lgtm").2.2 rfl
      (by decide)).1 (by decide)⟩

/-- Claim C7: a GitHub payload with action `closed` and
`pull_request.merged = true` whose PR author resolves to a registered user
causes exactly one delivery attempt, addressed to that user's delivery
endpoint, with the merge card variant; the merged-by identity is the pull
request's `merged_by` actor, falling back to the top-level `sender` when
absent. -/
theorem github_merge_single_delivery :
    ∀ (users : List UserConfig) (allowSelfComments : Bool)
      (deliver : Card → String → Bool) (data : Body)
      (pullRequest : PullRequestObj) (prOwner : UserConfig),
      data.action = some PR_CLOSED_ACTION →
      data.pull_request = some pullRequest →
      pullRequest.merged = some true →
      findPROwner users .github (.str (pullRequest.user_login.getD "")) =
        some prOwner →
      prOwner.teamsWebhookUrl ≠ "" →
      parseGitHubMergeEvent data = some (ghMergeEventOf data pullRequest) ∧
      (ghMergeEventOf data pullRequest).mergedBy =
        jsOrStr (pullRequest.merged_by_login.getD "")
          (data.sender_login.getD "") ∧
      processWebhook users allowSelfComments deliver .github data =
        (.merged
          (deliver (createMergeCard (ghMergeEventOf data pullRequest))
            prOwner.teamsWebhookUrl)
          prOwner.name (ghMergeEventOf data pullRequest),
          [(createMergeCard (ghMergeEventOf data pullRequest),
            prOwner.teamsWebhookUrl)]) := by
  intro users a d data pr o h1 h2 h3 h4 h5
  have hparse : parseGitHubMergeEvent data = some (ghMergeEventOf data pr) := by
    rw [parseGitHubMergeEvent, if_pos h1, h2]
    simp [h3, ghMergeEventOf]
  have hp : parseMergeEvent .github data = some (ghMergeEventOf data pr) := hparse
  refine ⟨hparse, rfl, ?_⟩
  rw [processWebhook, hp]
  show handleMerge users d .github (ghMergeEventOf data pr) = _
  rw [handleMerge]
  rw [show (ghMergeEventOf data pr).prAuthor =
    JSVal.str (pr.user_login.getD "") from rfl, h4]
  simp [sendToTeams, h5]

/-- Evaluation witness for `github_merge_single_delivery` on the concrete
merge payload `ghMergeBody` and registry `[aliceUser]`. -/
theorem github_merge_single_delivery_witness :
    processWebhook [aliceUser] false (fun _ _ => true) .github ghMergeBody =
      (.merged true aliceUser.name (ghMergeEventOf ghMergeBody ghMergePR),
        [(createMergeCard (ghMergeEventOf ghMergeBody ghMergePR),
          aliceUser.teamsWebhookUrl)]) :=
  (github_merge_single_delivery [aliceUser] false (fun _ _ => true) ghMergeBody
    ghMergePR aliceUser (by decide) (by decide) (by decide) (by decide)
    (by decide)).2.2

/-- Claim C8: a merge or review/approval event whose PR author matches no
registered user terminates with a not-processed outcome carrying a reason,
and no delivery of any kind — in particular no mention-based notification —
is attempted for that request (the delivery log is empty). -/
theorem unconfigured_author_terminal :
    ∀ (users : List UserConfig) (allowSelfComments : Bool)
      (deliver : Card → String → Bool) (source : Source) (data : Body),
      (∀ mergeEvent, parseMergeEvent source data = some mergeEvent →
        findPROwner users source mergeEvent.prAuthor = none →
        processWebhook users allowSelfComments deliver source data =
          (.ignored (prLabelOf source ++ " author not configured"), [])) ∧
      (∀ approvalEvent, parseApprovalEvent source data = some approvalEvent →
        findPROwner users source approvalEvent.prAuthor = none →
        processWebhook users allowSelfComments deliver source data =
          (.ignored (prLabelOf source ++ " author not configured"), [])) := by
  intro users a d source data
  constructor
  · intro ev hp hf
    rw [processWebhook, hp]
    show handleMerge users d source ev = _
    rw [handleMerge, hf]
  · intro ev hp hf
    rw [processWebhook, parseMergeEvent_none_of_approval source data ev hp, hp]
    show handleApproval users d source ev = _
    rw [handleApproval, hf]

/-- Evaluation witness for `unconfigured_author_terminal` over the empty
registry. -/
theorem unconfigured_author_terminal_witness :
    processWebhook [] false (fun _ _ => true) .github ghMergeBody =
      (.ignored (prLabelOf .github ++ " author not configured"), []) ∧
    processWebhook [] false (fun _ _ => true) .github ghReviewBody =
      (.ignored (prLabelOf .github ++ " author not configured"), []) :=
  ⟨(unconfigured_author_terminal [] false (fun _ _ => true) .github
      ghMergeBody).1 ghMergeEv (by decide) (by decide),
    (unconfigured_author_terminal [] false (fun _ _ => true) .github
      ghReviewBody).2 ghApprovalEv (by decide) (by decide)⟩

/-- Claim C9: self-notification suppression applies only to comment events.
For merge and review/approval events the resolved owner is notified even
when the owner themselves performed the merge or submitted the review
(`isCommentAuthor` holds of the merged-by / reviewed-by identity), and the
behaviour is identical for both values of the self-comments flag. -/
theorem merge_review_no_self_suppression :
    ∀ (users : List UserConfig) (allowSelfComments : Bool)
      (deliver : Card → String → Bool) (source : Source) (data : Body),
      (∀ mergeEvent prOwner, parseMergeEvent source data = some mergeEvent →
        findPROwner users source mergeEvent.prAuthor = some prOwner →
        isCommentAuthor prOwner source mergeEvent.mergedBy = true →
        prOwner.teamsWebhookUrl ≠ "" →
        processWebhook users allowSelfComments deliver source data =
          (.merged (deliver (createMergeCard mergeEvent) prOwner.teamsWebhookUrl)
            prOwner.name mergeEvent,
            [(createMergeCard mergeEvent, prOwner.teamsWebhookUrl)])) ∧
      (∀ approvalEvent prOwner,
        parseApprovalEvent source data = some approvalEvent →
        findPROwner users source approvalEvent.prAuthor = some prOwner →
        isCommentAuthor prOwner source approvalEvent.reviewedBy = true →
        prOwner.teamsWebhookUrl ≠ "" →
        processWebhook users allowSelfComments deliver source data =
          (.approved (deliver (createApprovalCard approvalEvent)
              prOwner.teamsWebhookUrl)
            approvalEvent.state prOwner.name approvalEvent,
            [(createApprovalCard approvalEvent, prOwner.teamsWebhookUrl)])) := by
  intro users a d source data
  constructor
  · intro ev o hp hf hauth hurl
    rw [processWebhook, hp]
    show handleMerge users d source ev = _
    rw [handleMerge, hf]
    simp [sendToTeams, hurl]
  · intro ev o hp hf hauth hurl
    rw [processWebhook, parseMergeEvent_none_of_approval source data ev hp, hp]
    show handleApproval users d source ev = _
    rw [handleApproval, hf]
    simp [sendToTeams, hurl]

/-- Evaluation witness for `merge_review_no_self_suppression`: alice merges
and approves her own PR and is notified both times. -/
theorem merge_review_no_self_suppression_witness :
    processWebhook [aliceUser] false (fun _ _ => true) .github ghSelfMergeBody =
      (.merged true aliceUser.name ghSelfMergeEv,
        [(createMergeCard ghSelfMergeEv, aliceUser.teamsWebhookUrl)]) ∧
    processWebhook [aliceUser] false (fun _ _ => true) .github ghSelfReviewBody =
      (.approved true "approved" aliceUser.name ghSelfApprovalEv,
        [(createApprovalCard ghSelfApprovalEv, aliceUser.teamsWebhookUrl)]) :=
  ⟨(merge_review_no_self_suppression [aliceUser] false (fun _ _ => true) .github
      ghSelfMergeBody).1 ghSelfMergeEv aliceUser (by decide) (by decide)
      (by decide) (by decide),
    (merge_review_no_self_suppression [aliceUser] false (fun _ _ => true) .github
      ghSelfReviewBody).2 ghSelfApprovalEv aliceUser (by decide) (by decide)
      (by decide) (by decide)⟩

/-- Claim C10: for a comment event with at least one qualifying recipient
the response reports `processed = true` with the per-recipient outcome
list, for every delivery oracle — in particular even when every delivery
attempt failed; for merge and review/approval events the `processed` flag
equals the success of the single delivery attempt. -/
theorem processed_flag_semantics :
    ∀ (users : List UserConfig) (allowSelfComments : Bool)
      (deliver : Card → String → Bool) (source : Source) (data : Body),
      (∀ parsed, parseCommentEvent source data = some parsed →
        (commentAccum users allowSelfComments deliver source parsed).1 ≠ [] →
        (processWebhook users allowSelfComments deliver source data).1 =
          .notifications true
            (commentAccum users allowSelfComments deliver source parsed).1) ∧
      (∀ mergeEvent prOwner, parseMergeEvent source data = some mergeEvent →
        findPROwner users source mergeEvent.prAuthor = some prOwner →
        (processWebhook users allowSelfComments deliver source data).1 =
          .merged (sendToTeams deliver (createMergeCard mergeEvent)
            prOwner.teamsWebhookUrl).1 prOwner.name mergeEvent) ∧
      (∀ approvalEvent prOwner,
        parseApprovalEvent source data = some approvalEvent →
        findPROwner users source approvalEvent.prAuthor = some prOwner →
        (processWebhook users allowSelfComments deliver source data).1 =
          .approved (sendToTeams deliver (createApprovalCard approvalEvent)
              prOwner.teamsWebhookUrl).1
            approvalEvent.state prOwner.name approvalEvent) := by
  intro users a d source data
  refine ⟨?_, ?_, ?_⟩
  · intro p hp hne
    rw [processWebhook, parseMergeEvent_none_of_comment source data p hp,
      parseApprovalEvent_none_of_comment source data p hp, hp]
    show (handleComment users a d source p).1 = _
    rw [handleComment]
    simp [hne]
  · intro ev o hp hf
    rw [processWebhook, hp]
    show (handleMerge users d source ev).1 = _
    rw [handleMerge, hf]
  · intro ev o hp hf
    rw [processWebhook, parseMergeEvent_none_of_approval source data ev hp, hp]
    show (handleApproval users d source ev).1 = _
    rw [handleApproval, hf]

/-- Evaluation witness for `processed_flag_semantics`: with an oracle that
fails every delivery, the comment response still reports processed while
the merge response reports the failed delivery. -/
theorem processed_flag_semantics_witness :
    (processWebhook [bobUser] false (fun _ _ => false) .gitlab glNoteBody).1 =
      .notifications true
        (commentAccum [bobUser] false (fun _ _ => false) .gitlab glNoteEv).1 ∧
    (processWebhook [aliceUser] false (fun _ _ => false) .github ghMergeBody).1 =
      .merged (sendToTeams (fun _ _ => false)
          (createMergeCard (ghMergeEventOf ghMergeBody ghMergePR))
          aliceUser.teamsWebhookUrl).1
        aliceUser.name (ghMergeEventOf ghMergeBody ghMergePR) :=
  ⟨(processed_flag_semantics [bobUser] false (fun _ _ => false) .gitlab
      glNoteBody).1 glNoteEv (by decide) (by decide),
    (processed_flag_semantics [aliceUser] false (fun _ _ => false) .github
      ghMergeBody).2.1 (ghMergeEventOf ghMergeBody ghMergePR) aliceUser
      (by decide) (by decide)⟩
